import Mathlib

/-!
Verification development for the `revo_bridge.py` relayer of this repository.

The Python source is shallowly embedded: Python ints become `ℤ`/`ℕ`,
`decimal.Decimal` values become `ℚ` together with an explicit model of the
28-significant-digit context (`getcontext().prec = 28`, default rounding
ROUND_HALF_EVEN) applied after every multiplication and division, strings
become `String`, dictionaries become association lists with Python-dict
update semantics, and fallible operations return `Option`.  External
effects (the source-chain RPC, the mint subprocess) are passed in as
explicit function parameters, and the mint capability is abstracted as
`recipient → amount → Option txhash` exactly at the interface boundary the
spec describes for MintExecutor.
-/

attribute [local semireducible] Rat.mul Rat.inv Rat.add Rat.sub

set_option maxRecDepth 4000

/-! ## Model of Python `decimal.Decimal` arithmetic at `prec = 28`

A finite `Decimal` value is a rational number; construction from an `int`
or from a short decimal string literal is exact, while every arithmetic
operation rounds its exact result to 28 significant digits using
ROUND_HALF_EVEN.  We model values as `ℚ` and the per-operation rounding as
`roundSig`, which rounds a rational to 28 significant decimal digits with
ties to even.  This is value-faithful to Python: a coefficient is rounded
only when it exceeds 28 digits, and dropping trailing zeros never changes
the value. -/

/-- Fueled base-10 logarithm on naturals: `log10fuel fuel n` is the number
of base-10 digits of `n` minus one, provided `n ≤ fuel` and `0 < n`. -/
def log10fuel : ℕ → ℕ → ℕ
  | 0, _ => 0
  | fuel+1, n => if n < 10 then 0 else log10fuel fuel (n / 10) + 1

/-- Number of base-10 digits of `n` minus one (0 for `n = 0`). -/
def natLog10 (n : ℕ) : ℕ := log10fuel n n

/-- Round a rational to the nearest integer, ties to even
(the ROUND_HALF_EVEN rule of `decimal`). -/
def rhe (x : ℚ) : ℤ :=
  if x - ⌊x⌋ < 1/2 then ⌊x⌋
  else if 1/2 < x - ⌊x⌋ then ⌊x⌋ + 1
  else if ⌊x⌋ % 2 = 0 then ⌊x⌋ else ⌊x⌋ + 1

/-- For `0 < q`, the unique `e : ℤ` with `10^e ≤ q < 10^(e+1)`
(0 for `q ≤ 0`). -/
def exp10 (q : ℚ) : ℤ :=
  if q ≤ 0 then 0
  else
    let a : ℤ := (natLog10 q.num.toNat : ℤ)
    let b : ℤ := (natLog10 q.den : ℤ)
    if (10:ℚ) ^ (a - b) ≤ q then a - b else a - b - 1

/-- Round a rational to 28 significant decimal digits, ties to even.
This is the value-level effect of the `decimal` context with
`prec = 28` on any single arithmetic result. -/
def roundSig (q : ℚ) : ℚ :=
  if q = 0 then 0
  else
    let shift : ℤ := 27 - exp10 |q|
    ((rhe (q * (10:ℚ) ^ shift) : ℤ) : ℚ) * (10:ℚ) ^ (-shift)

/-- Decimal multiplication under the 28-digit context. -/
def decMul (a b : ℚ) : ℚ := roundSig (a * b)

/-- Decimal division under the 28-digit context. -/
def decDiv (a b : ℚ) : ℚ := roundSig (a / b)

/-- Python `int()` applied to a finite `Decimal`: truncation toward zero. -/
def truncQ (q : ℚ) : ℤ := if 0 ≤ q then ⌊q⌋ else ⌈q⌉

/-! ## Constants of `revo_bridge.py` -/

def CXS_TOKEN_ADDRESS : String := "0x0000000000000000000000000000000000000000"

def NEXTEP_TOKEN_ADDRESS : String := "0x432e4997060f2385bdb32cdc8be815c6b22a8a61"

def CXS_DECIMALS : ℕ := 18

def NEXTEP_DECIMALS : ℕ := 18

def REVO_DECIMALS : ℕ := 18

def DEFAULT_CONFIRMATION_BLOCKS : ℤ := 12

/-! ## String helpers

The addresses and calldata handled by the bridge are ASCII hex strings, so
Python `str.lower()` is ASCII lowercasing, and Python slicing `s[a:b]`
(with `0 ≤ a ≤ b`) is drop/take on the character list. -/

/-- ASCII lowercase of one character (what `str.lower()` does on the
hex-address alphabet the bridge handles). -/
def lowerChar (c : Char) : Char :=
  if 'A' ≤ c ∧ c ≤ 'Z' then Char.ofNat (c.toNat + 32) else c

/-- Python `s.lower()` on an ASCII string. -/
def lowerStr (s : String) : String := ⟨s.data.map lowerChar⟩

/-- Python `s[a:b]` for `a ≤ b`. -/
def sliceStr (s : String) (a b : ℕ) : String := ⟨(s.data.drop a).take (b - a)⟩

/-- Value of one hexadecimal digit, if any. -/
def hexVal? (c : Char) : Option ℕ :=
  if '0' ≤ c ∧ c ≤ '9' then some (c.toNat - '0'.toNat)
  else if 'a' ≤ c ∧ c ≤ 'f' then some (c.toNat - 'a'.toNat + 10)
  else if 'A' ≤ c ∧ c ≤ 'F' then some (c.toNat - 'A'.toNat + 10)
  else none

/-- Python `int(s, 16)`: `none` models the `ValueError` raised on an empty
or non-hexadecimal string (caught by the per-transaction handler in
`scan_for_deposits`). -/
def hexNat? (s : String) : Option ℕ :=
  if s.data.isEmpty then none
  else s.data.foldl
    (fun acc c =>
      match acc, hexVal? c with
      | some a, some d => some (a * 16 + d)
      | _, _ => none)
    (some 0)

/-! ## Data model -/

/-- One raw source-chain transaction as exposed by the RPC: `to` is `none`
for contract creations (Python `tx.to is None`). -/
structure Tx where
  hash : String
  fromAddr : String
  toAddr : Option String
  value : ℤ
  input : String
deriving DecidableEq

/-- One fetched block with full transaction bodies. -/
structure Block where
  transactions : List Tx
  timestamp : ℤ
deriving DecidableEq

/-- A qualifying deposit extracted by `scan_for_deposits`. -/
structure Deposit where
  tx_hash : String
  from_address : String
  token_address : String
  amount : ℤ
  block_number : ℤ
  timestamp : ℤ
deriving DecidableEq

/-- The `details` dictionary stored by `process_deposits` on a successful
mint.  The source stores the two amounts as decimal strings via `str`,
an injective formatting we keep as integers. -/
structure MintDetails where
  from_address : String
  token_address : String
  amount : ℤ
  revo_amount : ℤ
  mint_tx_hash : String
  timestamp : String
deriving DecidableEq

/-- The record stored under a transaction hash in `processed_txs`. -/
structure ProcessedRecord where
  timestamp : String
  details : MintDetails
deriving DecidableEq

/-- Python dict assignment `m[k] = v` on an association list: replace the
binding in place if the key is present, append otherwise. -/
def dictSet : List (String × ProcessedRecord) → String → ProcessedRecord →
    List (String × ProcessedRecord)
  | [], k, v => [(k, v)]
  | (k₁, v₁) :: rest, k, v =>
    if k₁ = k then (k, v) :: rest else (k₁, v₁) :: dictSet rest k v

/-- Python dict lookup `m.get(k)`. -/
def dictGet? (m : List (String × ProcessedRecord)) (k : String) :
    Option ProcessedRecord :=
  (m.find? (fun p => p.1 == k)).map (fun p => p.2)

/-- The mutable state of class `BridgeState`: the last fully processed
block and the map of already-credited transaction hashes. -/
structure BridgeState where
  last_block_processed : ℤ
  processed_txs : List (String × ProcessedRecord)
deriving DecidableEq

/-- Parsed content of a readable state file (`state.get` defaults for
missing keys are folded into the two fields). -/
structure StateFileData where
  last_block_processed : ℤ
  processed_txs : List (String × ProcessedRecord)
deriving DecidableEq

/-- The constructor plus `BridgeState.load_state`: fields start at the
empty initial state (`last_block_processed = 0`, empty dict); a missing
file (`none`) leaves them untouched, a file that raises while being read
or parsed (`some (Except.error e)`) is caught by the bare handler, logged,
and likewise leaves the defaults in place. -/
def BridgeState.load_state (file : Option (Except String StateFileData)) :
    BridgeState :=
  match file with
  | none => { last_block_processed := 0, processed_txs := [] }
  | some (Except.error _) => { last_block_processed := 0, processed_txs := [] }
  | some (Except.ok s) =>
    { last_block_processed := s.last_block_processed
      processed_txs := s.processed_txs }

/-- `BridgeState.update_last_block`: plain assignment of the new block
number. -/
def BridgeState.update_last_block (st : BridgeState) (block_number : ℤ) :
    BridgeState :=
  { st with last_block_processed := block_number }

/-- `BridgeState.is_tx_processed`: dict membership test. -/
def BridgeState.is_tx_processed (st : BridgeState) (tx_hash : String) : Bool :=
  (dictGet? st.processed_txs tx_hash).isSome

/-- `BridgeState.mark_tx_processed`: dict assignment of the record. -/
def BridgeState.mark_tx_processed (st : BridgeState) (tx_hash : String)
    (rec : ProcessedRecord) : BridgeState :=
  { st with processed_txs := dictSet st.processed_txs tx_hash rec }

/-! ## `calculate_revo_amount` -/

/-- Result of `calculate_revo_amount` with the error branches kept
distinct: the source logs and returns `0` on either error path, which the
spec names `InvalidPrice` and `UnsupportedAsset`. -/
inductive CalcResult where
  | invalidPrice : CalcResult
  | unsupportedAsset : CalcResult
  | ok : ℤ → CalcResult
deriving DecidableEq

/-- Shared tail of `calculate_revo_amount` after the token branch has
selected `token_decimals` and `token_price`: the chain of `Decimal`
operations followed by `int()`. -/
def revoFromPath (token_amount : ℤ) (token_decimals : ℕ)
    (token_price revo_price : ℚ) : ℤ :=
  let token_amount_decimal := decDiv (token_amount : ℚ) ((10:ℚ) ^ token_decimals)
  let usd_value := decMul token_amount_decimal token_price
  let revo_amount := decDiv usd_value revo_price
  truncQ (decMul revo_amount ((10:ℚ) ^ REVO_DECIMALS))

/-- `calculate_revo_amount` with its branch structure made explicit:
the guard on `revo_price`, then the `if`/`elif`/`else` over the lowercased
token address. -/
def calcRevoResult (token_address : String) (token_amount : ℤ)
    (cxs_price nextep_price revo_price : ℚ) : CalcResult :=
  if revo_price ≤ 0 then CalcResult.invalidPrice
  else if lowerStr token_address = lowerStr CXS_TOKEN_ADDRESS then
    CalcResult.ok (revoFromPath token_amount CXS_DECIMALS cxs_price revo_price)
  else if lowerStr token_address = lowerStr NEXTEP_TOKEN_ADDRESS then
    CalcResult.ok (revoFromPath token_amount NEXTEP_DECIMALS nextep_price revo_price)
  else CalcResult.unsupportedAsset

/-- `calculate_revo_amount` as the integer the caller sees: both error
paths return `0`. -/
def calculate_revo_amount (token_address : String) (token_amount : ℤ)
    (cxs_price nextep_price revo_price : ℚ) : ℤ :=
  match calcRevoResult token_address token_amount cxs_price nextep_price revo_price with
  | CalcResult.ok z => z
  | _ => 0

/-! ## `scan_for_deposits` -/

/-- Decoding of one transaction inside the block loop of
`scan_for_deposits`: everything is guarded by
`tx.to and tx.to.lower() == bridge_address.lower()`; a native transfer and
a token `transfer(address,uint256)` call are checked independently and can
both fire.  A `none` from `hexNat?` models the `ValueError` swallowed by
the per-transaction `except` handler. -/
def decodeTx (bridge_address : String) (token_addresses : List String)
    (block_number timestamp : ℤ) (tx : Tx) : List Deposit :=
  match tx.toAddr with
  | none => []
  | some toA =>
    if lowerStr toA = lowerStr bridge_address then
      let native : List Deposit :=
        if 0 < tx.value then
          [{ tx_hash := tx.hash, from_address := lowerStr tx.fromAddr,
             token_address := CXS_TOKEN_ADDRESS, amount := tx.value,
             block_number := block_number, timestamp := timestamp }]
        else []
      let token : List Deposit :=
        if 10 ≤ tx.input.data.length then
          if sliceStr tx.input 0 10 = "0xa9059cbb" then
            let token_address := lowerStr toA
            if token_addresses.contains token_address then
              let recipient := "0x" ++ lowerStr (sliceStr tx.input 34 74)
              if lowerStr recipient = lowerStr bridge_address then
                match hexNat? (sliceStr tx.input 74 138) with
                | some amount =>
                  [{ tx_hash := tx.hash, from_address := lowerStr tx.fromAddr,
                     token_address := token_address, amount := (amount : ℤ),
                     block_number := block_number, timestamp := timestamp }]
                | none => []
              else []
            else []
          else []
        else []
      native ++ token
    else []

/-- Inclusive integer range `[a, b]` as a list. -/
def blockRange (a b : ℤ) : List ℤ :=
  (List.range (b - a + 1).toNat).map (fun i => a + (i : ℤ))

/-- `scan_for_deposits`: walk the inclusive block range; a block whose
fetch raises (`chain n = none`) is logged and skipped. -/
def scan_for_deposits (chain : ℤ → Option Block) (bridge_address : String)
    (start_block end_block : ℤ) (token_addresses : List String) : List Deposit :=
  (blockRange start_block end_block).flatMap
    (fun block_number =>
      match chain block_number with
      | none => []
      | some blk =>
        blk.transactions.flatMap
          (decodeTx bridge_address token_addresses block_number blk.timestamp))

/-! ## `process_deposits` and the polling cycle of `run_bridge` -/

/-- `process_deposits`, with the mint subprocess abstracted as
`mint recipient amount = some txhash | none`.  Returns the updated state,
the number of times the mint capability was invoked, and the source's
`processed_count`.  The loop accumulators are threaded through the
recursion on the deposit list. -/
def process_deposits (mint : String → ℤ → Option String)
    (cxs_price nextep_price revo_price : ℚ) (now : String) :
    List Deposit → BridgeState → BridgeState × ℕ × ℕ
  | [], st => (st, 0, 0)
  | d :: rest, st =>
    if st.is_tx_processed d.tx_hash then
      process_deposits mint cxs_price nextep_price revo_price now rest st
    else
      let revo_amount :=
        calculate_revo_amount d.token_address d.amount cxs_price nextep_price revo_price
      if revo_amount ≤ 0 then
        process_deposits mint cxs_price nextep_price revo_price now rest st
      else
        match mint d.from_address revo_amount with
        | some mint_tx_hash =>
          let st' := st.mark_tx_processed d.tx_hash
            { timestamp := now,
              details :=
                { from_address := d.from_address, token_address := d.token_address,
                  amount := d.amount, revo_amount := revo_amount,
                  mint_tx_hash := mint_tx_hash, timestamp := now } }
          let r := process_deposits mint cxs_price nextep_price revo_price now rest st'
          (r.1, r.2.1 + 1, r.2.2 + 1)
        | none =>
          let r := process_deposits mint cxs_price nextep_price revo_price now rest st
          (r.1, r.2.1 + 1, r.2.2)

/-- Configuration of `run_bridge` relevant to one poll cycle. -/
structure BridgeArgs where
  bridge_address : String
  confirmations : ℤ
  max_blocks : ℤ
  cxs_price : ℚ
  nextep_price : ℚ
  revo_price : ℚ

/-- One iteration of the main loop of `run_bridge`: compute the scan
window; if `start_block > end_block` sleep and re-enter (`none` records
that no block was scanned); otherwise scan, process, and update the last
processed block unconditionally.  The returned `Option` is the window that
was scanned.  The source's `if deposits:` only skips a call that is a
no-op on the empty list, and `save_state` is file I/O outside the state
transition. -/
def run_bridge_cycle (chain : ℤ → Option Block)
    (mint : String → ℤ → Option String) (args : BridgeArgs) (now : String)
    (st : BridgeState) (current_block : ℤ) : BridgeState × Option (ℤ × ℤ) :=
  let start_block := st.last_block_processed + 1
  let end_block := min (current_block - args.confirmations)
      (start_block + args.max_blocks - 1)
  if start_block > end_block then (st, none)
  else
    let token_addresses := [lowerStr CXS_TOKEN_ADDRESS, lowerStr NEXTEP_TOKEN_ADDRESS]
    let deposits := scan_for_deposits chain args.bridge_address start_block
        end_block token_addresses
    let st' := (process_deposits mint args.cxs_price args.nextep_price
        args.revo_price now deposits st).1
    (st'.update_last_block end_block, some (start_block, end_block))

/-! ## Spec-side reference definition -/

/-- Modelled from the spec: the idealised conversion
`floor((amount / 10^source_decimals) * source_price / dest_price *
10^dest_decimals)` of section 4.1, written with exact rational arithmetic.
Used only to compare the source's 28-digit computation against the spec's
floor formula. -/
def specConvertFloor (amount_base_units : ℤ) (source_decimals : ℕ)
    (source_price_usd dest_price_usd : ℚ) (dest_decimals : ℕ) : ℤ :=
  ⌊(amount_base_units : ℚ) / (10:ℚ) ^ source_decimals * source_price_usd /
    dest_price_usd * (10:ℚ) ^ dest_decimals⌋

/-! ## Concrete instances used by the claim theorems below -/

def noMint : String → ℤ → Option String := fun _ _ => none

def c1Bridge : String := "0x1111111111111111111111111111111111111111"

def c1Input : String :=
  "0xa9059cbb" ++ "000000000000000000000000" ++
  "1111111111111111111111111111111111111111" ++
  "0000000000000000000000000000000000000000000000000000000000000001"

def c1Tx : Tx :=
  { hash := "0xc1c1", fromAddr := "0xAb22", toAddr := some NEXTEP_TOKEN_ADDRESS,
    value := 0, input := c1Input }

def c1Chain : ℤ → Option Block :=
  fun _ => some { transactions := [c1Tx], timestamp := 1000 }

def c2Mint : String → ℤ → Option String := fun _ _ => some "0xminted"

def c2Rec : ProcessedRecord :=
  { timestamp := "t0",
    details := { from_address := "0xsender", token_address := CXS_TOKEN_ADDRESS,
                 amount := 5, revo_amount := 5, mint_tx_hash := "0xm0",
                 timestamp := "t0" } }

def c2State : BridgeState :=
  { last_block_processed := 7, processed_txs := [("0xdead", c2Rec)] }

def c2Dep : Deposit :=
  { tx_hash := "0xdead", from_address := "0xsender",
    token_address := CXS_TOKEN_ADDRESS, amount := 5, block_number := 8,
    timestamp := 123 }

def noChain : ℤ → Option Block := fun _ => none

def c3Args : BridgeArgs :=
  { bridge_address := "0xcccccccccccccccccccccccccccccccccccccccc",
    confirmations := 12, max_blocks := 100,
    cxs_price := 1, nextep_price := 1, revo_price := 1 }

def c3State : BridgeState := { last_block_processed := 90, processed_txs := [] }

def c7Bridge : String := "0xbbbbbbbbbbbbbbbbbbbbbbbbbbbbbbbbbbbbbbbb"

def c7Tx : Tx :=
  { hash := "0xfeed01", fromAddr := "0xaaaaaaaaaaaaaaaaaaaaaaaaaaaaaaaaaaaaaaaa",
    toAddr := some c7Bridge, value := 5, input := "" }

def c7Chain : ℤ → Option Block :=
  fun n => if n = 1 then some { transactions := [c7Tx], timestamp := 777 } else none

def c7Dep : Deposit :=
  { tx_hash := "0xfeed01",
    from_address := "0xaaaaaaaaaaaaaaaaaaaaaaaaaaaaaaaaaaaaaaaa",
    token_address := CXS_TOKEN_ADDRESS, amount := 5, block_number := 1,
    timestamp := 777 }

def c7Args : BridgeArgs :=
  { bridge_address := c7Bridge, confirmations := 0, max_blocks := 100,
    cxs_price := 1, nextep_price := 1, revo_price := 1 }

def c8Rec1 : ProcessedRecord :=
  { timestamp := "t1",
    details := { from_address := "0xa", token_address := CXS_TOKEN_ADDRESS,
                 amount := 1, revo_amount := 2, mint_tx_hash := "0xm1",
                 timestamp := "t1" } }

def c8Rec2 : ProcessedRecord :=
  { timestamp := "t2",
    details := { from_address := "0xa", token_address := CXS_TOKEN_ADDRESS,
                 amount := 1, revo_amount := 2, mint_tx_hash := "0xm2",
                 timestamp := "t2" } }

/-! ## Arithmetic lemmas about the Decimal model -/

lemma log10fuel_spec : ∀ (fuel n : ℕ), 0 < n → n ≤ fuel →
    10 ^ log10fuel fuel n ≤ n ∧ n < 10 ^ (log10fuel fuel n + 1) := by
  intro fuel
  induction fuel with
  | zero => intro n h1 h2; omega
  | succ fuel ih =>
    intro n h1 h2
    rw [log10fuel]
    by_cases h : n < 10
    · simp only [if_pos h]
      constructor
      · simpa using h1
      · simpa using h
    · simp only [if_neg h]
      have hd : 0 < n / 10 := Nat.div_pos (le_of_not_lt h) (by norm_num)
      have hlt : n / 10 < n := Nat.div_lt_self h1 (by norm_num)
      have hle : n / 10 ≤ fuel := by omega
      obtain ⟨l, u⟩ := ih (n / 10) hd hle
      constructor
      · calc 10 ^ (log10fuel fuel (n / 10) + 1)
            = 10 ^ log10fuel fuel (n / 10) * 10 := by ring
          _ ≤ n / 10 * 10 := Nat.mul_le_mul_right 10 l
          _ ≤ n := Nat.div_mul_le_self n 10
      · have h2' : n < (n / 10 + 1) * 10 := by omega
        calc n < (n / 10 + 1) * 10 := h2'
          _ ≤ 10 ^ (log10fuel fuel (n / 10) + 1) * 10 :=
              Nat.mul_le_mul_right 10 (by omega)
          _ = 10 ^ (log10fuel fuel (n / 10) + 1 + 1) := by ring

lemma natLog10_spec (n : ℕ) (h : 0 < n) :
    10 ^ natLog10 n ≤ n ∧ n < 10 ^ (natLog10 n + 1) :=
  log10fuel_spec n n h le_rfl

lemma exp10_spec {q : ℚ} (hq : 0 < q) :
    (10:ℚ) ^ exp10 q ≤ q ∧ q < (10:ℚ) ^ (exp10 q + 1) := by
  have hq' : ¬ q ≤ 0 := not_le.mpr hq
  have hnum : 0 < q.num := Rat.num_pos.mpr hq
  have hden : 0 < q.den := q.pos
  have hn0 : 0 < q.num.toNat := by omega
  have hcast : ((q.num.toNat : ℤ)) = q.num := Int.toNat_of_nonneg hnum.le
  obtain ⟨ln1, ln2⟩ := natLog10_spec q.num.toNat hn0
  obtain ⟨ld1, ld2⟩ := natLog10_spec q.den hden
  set A := natLog10 q.num.toNat with hA
  set B := natLog10 q.den with hB
  have hnQ : (10:ℚ) ^ A ≤ (q.num.toNat : ℚ) := by exact_mod_cast ln1
  have hnQ2 : ((q.num.toNat : ℚ)) < (10:ℚ) ^ (A + 1) := by exact_mod_cast ln2
  have hdQ : (10:ℚ) ^ B ≤ (q.den : ℚ) := by exact_mod_cast ld1
  have hdQ2 : ((q.den : ℚ)) < (10:ℚ) ^ (B + 1) := by exact_mod_cast ld2
  have hnumQ : ((q.num.toNat : ℚ)) = (q.num : ℚ) := by exact_mod_cast hcast
  have hqeq : q = (q.num.toNat : ℚ) / (q.den : ℚ) := by
    rw [hnumQ, Rat.num_div_den q]
  have hdenQ : (0:ℚ) < (q.den : ℚ) := by exact_mod_cast hden
  have hnQpos : (0:ℚ) < (q.num.toNat : ℚ) := by exact_mod_cast hn0
  have hupper : q < (10:ℚ) ^ ((A : ℤ) - B + 1) := by
    have h1 : (q.num.toNat : ℚ) / (q.den : ℚ) ≤ (q.num.toNat : ℚ) / (10:ℚ) ^ B := by
      gcongr
    have h2 : (q.num.toNat : ℚ) / (10:ℚ) ^ B < (10:ℚ) ^ (A + 1) / (10:ℚ) ^ B := by
      gcongr
    have h3 : (10:ℚ) ^ (A + 1) / (10:ℚ) ^ B = (10:ℚ) ^ ((A : ℤ) - B + 1) := by
      rw [← zpow_natCast (10:ℚ) (A + 1), ← zpow_natCast (10:ℚ) B, ← zpow_sub₀ (by norm_num : (10:ℚ) ≠ 0)]
      congr 1
      push_cast
      ring
    calc q = (q.num.toNat : ℚ) / (q.den : ℚ) := hqeq
      _ ≤ (q.num.toNat : ℚ) / (10:ℚ) ^ B := h1
      _ < (10:ℚ) ^ (A + 1) / (10:ℚ) ^ B := h2
      _ = (10:ℚ) ^ ((A : ℤ) - B + 1) := h3
  have hlower : (10:ℚ) ^ ((A : ℤ) - B - 1) < q := by
    have h1 : (10:ℚ) ^ A / (10:ℚ) ^ (B + 1) ≤ (q.num.toNat : ℚ) / (10:ℚ) ^ (B + 1) := by
      gcongr
    have h2 : (q.num.toNat : ℚ) / (10:ℚ) ^ (B + 1) < (q.num.toNat : ℚ) / (q.den : ℚ) :=
      div_lt_div_of_pos_left hnQpos hdenQ hdQ2
    have h3 : (10:ℚ) ^ A / (10:ℚ) ^ (B + 1) = (10:ℚ) ^ ((A : ℤ) - B - 1) := by
      rw [← zpow_natCast (10:ℚ) A, ← zpow_natCast (10:ℚ) (B + 1), ← zpow_sub₀ (by norm_num : (10:ℚ) ≠ 0)]
      congr 1
      push_cast
      ring
    calc (10:ℚ) ^ ((A : ℤ) - B - 1) = (10:ℚ) ^ A / (10:ℚ) ^ (B + 1) := h3.symm
      _ ≤ (q.num.toNat : ℚ) / (10:ℚ) ^ (B + 1) := h1
      _ < (q.num.toNat : ℚ) / (q.den : ℚ) := h2
      _ = q := hqeq.symm
  have hexp : exp10 q =
      if (10:ℚ) ^ ((A : ℤ) - B) ≤ q then (A : ℤ) - B else (A : ℤ) - B - 1 := by
    rw [exp10, if_neg hq']
  by_cases hc : (10:ℚ) ^ ((A : ℤ) - B) ≤ q
  · rw [hexp, if_pos hc]
    refine ⟨hc, ?_⟩
    have : (A : ℤ) - B + 1 = (A : ℤ) - B + 1 := rfl
    exact hupper
  · rw [hexp, if_neg hc]
    constructor
    · exact hlower.le
    · have h4 : (A : ℤ) - B - 1 + 1 = (A : ℤ) - B := by ring
      rw [h4]
      exact not_le.mp hc

lemma exp10_unique {q : ℚ} (hq : 0 < q) {e : ℤ}
    (h1 : (10:ℚ) ^ e ≤ q) (h2 : q < (10:ℚ) ^ (e + 1)) : exp10 q = e := by
  obtain ⟨l, u⟩ := exp10_spec hq
  by_contra hne
  rcases lt_or_gt_of_ne hne with hlt | hgt
  · have : exp10 q + 1 ≤ e := by omega
    have hle : (10:ℚ) ^ (exp10 q + 1) ≤ (10:ℚ) ^ e :=
      zpow_le_zpow_right₀ (by norm_num) this
    exact absurd (lt_of_lt_of_le u (le_trans hle h1)) (lt_irrefl q)
  · have : e + 1 ≤ exp10 q := by omega
    have hle : (10:ℚ) ^ (e + 1) ≤ (10:ℚ) ^ exp10 q :=
      zpow_le_zpow_right₀ (by norm_num) this
    exact absurd (lt_of_lt_of_le h2 (le_trans hle l)) (lt_irrefl q)

lemma rhe_floor_le (x : ℚ) : ⌊x⌋ ≤ rhe x := by
  rw [rhe]
  split_ifs <;> omega

lemma rhe_le_floor_add_one (x : ℚ) : rhe x ≤ ⌊x⌋ + 1 := by
  rw [rhe]
  split_ifs <;> omega

lemma rhe_mono {x y : ℚ} (h : x ≤ y) : rhe x ≤ rhe y := by
  rcases lt_or_eq_of_le (Int.floor_mono h) with hf | hf
  · have h1 := rhe_le_floor_add_one x
    have h2 := rhe_floor_le y
    omega
  · rw [rhe, rhe, ← hf]
    have hfr : x - ⌊x⌋ ≤ y - ⌊x⌋ := by linarith
    split_ifs with a1 a2 a3 b1 b2 b3 <;> try omega
    all_goals linarith

lemma ten_ne_zero : (10:ℚ) ≠ 0 := by norm_num

lemma roundSig_eq_of_pos {q : ℚ} (hq : 0 < q) :
    roundSig q =
      ((rhe (q * (10:ℚ) ^ (27 - exp10 q)) : ℤ) : ℚ) * (10:ℚ) ^ (-(27 - exp10 q)) := by
  rw [roundSig, if_neg (ne_of_gt hq), abs_of_pos hq]

lemma roundSig_lb {q : ℚ} (hq : 0 < q) : (10:ℚ) ^ exp10 q ≤ roundSig q := by
  obtain ⟨l, _⟩ := exp10_spec hq
  have hpow : (0:ℚ) < (10:ℚ) ^ (27 - exp10 q) := zpow_pos (by norm_num) _
  have hpow' : (0:ℚ) < (10:ℚ) ^ (-(27 - exp10 q)) := zpow_pos (by norm_num) _
  have hscaled : (10:ℚ) ^ (27:ℤ) ≤ q * (10:ℚ) ^ (27 - exp10 q) := by
    calc (10:ℚ) ^ (27:ℤ) = (10:ℚ) ^ exp10 q * (10:ℚ) ^ (27 - exp10 q) := by
          rw [← zpow_add₀ ten_ne_zero]
          congr 1
          ring
      _ ≤ q * (10:ℚ) ^ (27 - exp10 q) := mul_le_mul_of_nonneg_right l hpow.le
  have hfloor : (10:ℤ) ^ (27:ℕ) ≤ ⌊q * (10:ℚ) ^ (27 - exp10 q)⌋ := by
    rw [Int.le_floor]
    calc (((10:ℤ) ^ (27:ℕ) : ℤ) : ℚ) = (10:ℚ) ^ (27:ℤ) := by
          push_cast
          norm_num
      _ ≤ q * (10:ℚ) ^ (27 - exp10 q) := hscaled
  have hrhe : (10:ℤ) ^ (27:ℕ) ≤ rhe (q * (10:ℚ) ^ (27 - exp10 q)) :=
    le_trans hfloor (rhe_floor_le _)
  have hrheQ : (10:ℚ) ^ (27:ℤ) ≤ ((rhe (q * (10:ℚ) ^ (27 - exp10 q)) : ℤ) : ℚ) := by
    calc (10:ℚ) ^ (27:ℤ) = (((10:ℤ) ^ (27:ℕ) : ℤ) : ℚ) := by
          push_cast
          norm_num
      _ ≤ _ := by exact_mod_cast hrhe
  rw [roundSig_eq_of_pos hq]
  calc (10:ℚ) ^ exp10 q = (10:ℚ) ^ (27:ℤ) * (10:ℚ) ^ (-(27 - exp10 q)) := by
        rw [← zpow_add₀ ten_ne_zero]
        congr 1
        ring
    _ ≤ ((rhe (q * (10:ℚ) ^ (27 - exp10 q)) : ℤ) : ℚ) * (10:ℚ) ^ (-(27 - exp10 q)) :=
        mul_le_mul_of_nonneg_right hrheQ hpow'.le

lemma roundSig_ub {q : ℚ} (hq : 0 < q) : roundSig q ≤ (10:ℚ) ^ (exp10 q + 1) := by
  obtain ⟨_, u⟩ := exp10_spec hq
  have hpow : (0:ℚ) < (10:ℚ) ^ (27 - exp10 q) := zpow_pos (by norm_num) _
  have hpow' : (0:ℚ) < (10:ℚ) ^ (-(27 - exp10 q)) := zpow_pos (by norm_num) _
  have hscaled : q * (10:ℚ) ^ (27 - exp10 q) < (10:ℚ) ^ (28:ℤ) := by
    calc q * (10:ℚ) ^ (27 - exp10 q)
        < (10:ℚ) ^ (exp10 q + 1) * (10:ℚ) ^ (27 - exp10 q) :=
          mul_lt_mul_of_pos_right u hpow
      _ = (10:ℚ) ^ (28:ℤ) := by
          rw [← zpow_add₀ ten_ne_zero]
          congr 1
          ring
  have hfloor : ⌊q * (10:ℚ) ^ (27 - exp10 q)⌋ < (10:ℤ) ^ (28:ℕ) := by
    rw [Int.floor_lt]
    calc q * (10:ℚ) ^ (27 - exp10 q) < (10:ℚ) ^ (28:ℤ) := hscaled
      _ = (((10:ℤ) ^ (28:ℕ) : ℤ) : ℚ) := by
          push_cast
          norm_num
  have hrhe : rhe (q * (10:ℚ) ^ (27 - exp10 q)) ≤ (10:ℤ) ^ (28:ℕ) := by
    have := rhe_le_floor_add_one (q * (10:ℚ) ^ (27 - exp10 q))
    omega
  have hrheQ : ((rhe (q * (10:ℚ) ^ (27 - exp10 q)) : ℤ) : ℚ) ≤ (10:ℚ) ^ (28:ℤ) := by
    calc ((rhe (q * (10:ℚ) ^ (27 - exp10 q)) : ℤ) : ℚ)
        ≤ (((10:ℤ) ^ (28:ℕ) : ℤ) : ℚ) := by exact_mod_cast hrhe
      _ = (10:ℚ) ^ (28:ℤ) := by
          push_cast
          norm_num
  rw [roundSig_eq_of_pos hq]
  calc ((rhe (q * (10:ℚ) ^ (27 - exp10 q)) : ℤ) : ℚ) * (10:ℚ) ^ (-(27 - exp10 q))
      ≤ (10:ℚ) ^ (28:ℤ) * (10:ℚ) ^ (-(27 - exp10 q)) :=
        mul_le_mul_of_nonneg_right hrheQ hpow'.le
    _ = (10:ℚ) ^ (exp10 q + 1) := by
        rw [← zpow_add₀ ten_ne_zero]
        congr 1
        ring

lemma roundSig_pos {q : ℚ} (hq : 0 < q) : 0 < roundSig q :=
  lt_of_lt_of_le (zpow_pos (by norm_num) (exp10 q)) (roundSig_lb hq)

lemma roundSig_mono {x y : ℚ} (hx : 0 < x) (hxy : x ≤ y) :
    roundSig x ≤ roundSig y := by
  have hy : 0 < y := lt_of_lt_of_le hx hxy
  obtain ⟨lx, ux⟩ := exp10_spec hx
  obtain ⟨ly, uy⟩ := exp10_spec hy
  have hee : exp10 x ≤ exp10 y := by
    by_contra hcon
    push_neg at hcon
    have h1 : exp10 y + 1 ≤ exp10 x := by omega
    have h2 : (10:ℚ) ^ (exp10 y + 1) ≤ (10:ℚ) ^ exp10 x :=
      zpow_le_zpow_right₀ (by norm_num) h1
    have : y < y := lt_of_lt_of_le uy (le_trans h2 (le_trans lx hxy))
    exact absurd this (lt_irrefl y)
  rcases eq_or_lt_of_le hee with heq | hlt
  · rw [roundSig_eq_of_pos hx, roundSig_eq_of_pos hy, ← heq]
    have hpow : (0:ℚ) ≤ (10:ℚ) ^ (27 - exp10 x) := (zpow_pos (by norm_num) _).le
    have hpow' : (0:ℚ) ≤ (10:ℚ) ^ (-(27 - exp10 x)) := (zpow_pos (by norm_num) _).le
    have hsc : x * (10:ℚ) ^ (27 - exp10 x) ≤ y * (10:ℚ) ^ (27 - exp10 x) :=
      mul_le_mul_of_nonneg_right hxy hpow
    have hr : rhe (x * (10:ℚ) ^ (27 - exp10 x)) ≤ rhe (y * (10:ℚ) ^ (27 - exp10 x)) :=
      rhe_mono hsc
    exact mul_le_mul_of_nonneg_right (by exact_mod_cast hr) hpow'
  · calc roundSig x ≤ (10:ℚ) ^ (exp10 x + 1) := roundSig_ub hx
      _ ≤ (10:ℚ) ^ exp10 y := zpow_le_zpow_right₀ (by norm_num) (by omega)
      _ ≤ roundSig y := roundSig_lb hy

lemma truncQ_mono_of_nonneg {x y : ℚ} (hx : 0 ≤ x) (hxy : x ≤ y) :
    truncQ x ≤ truncQ y := by
  rw [truncQ, truncQ, if_pos hx, if_pos (le_trans hx hxy)]
  exact Int.floor_mono hxy

lemma decDiv_pos {a b : ℚ} (ha : 0 < a) (hb : 0 < b) : 0 < decDiv a b :=
  roundSig_pos (div_pos ha hb)

lemma decMul_pos {a b : ℚ} (ha : 0 < a) (hb : 0 < b) : 0 < decMul a b :=
  roundSig_pos (mul_pos ha hb)

lemma decDiv_mono_num {a b c : ℚ} (ha : 0 < a) (hab : a ≤ b) (hc : 0 < c) :
    decDiv a c ≤ decDiv b c :=
  roundSig_mono (div_pos ha hc) (by gcongr)

lemma decDiv_anti_den {a b c : ℚ} (ha : 0 < a) (hb : 0 < b) (hbc : b ≤ c) :
    decDiv a c ≤ decDiv a b :=
  roundSig_mono (div_pos ha (lt_of_lt_of_le hb hbc)) (by gcongr)

lemma decMul_mono_left {a b c : ℚ} (ha : 0 < a) (hab : a ≤ b) (hc : 0 < c) :
    decMul a c ≤ decMul b c :=
  roundSig_mono (mul_pos ha hc) (mul_le_mul_of_nonneg_right hab hc.le)

lemma decMul_mono_right {a b c : ℚ} (hc : 0 < c) (ha : 0 < a) (hab : a ≤ b) :
    decMul c a ≤ decMul c b :=
  roundSig_mono (mul_pos hc ha) (mul_le_mul_of_nonneg_left hab hc.le)

lemma revoFromPath_mono_amount {a b : ℤ} {dec : ℕ} {p r : ℚ}
    (ha : 0 < a) (hab : a ≤ b) (hp : 0 < p) (hr : 0 < r) :
    revoFromPath a dec p r ≤ revoFromPath b dec p r := by
  have hD : (0:ℚ) < (10:ℚ) ^ dec := pow_pos (by norm_num) dec
  have hR : (0:ℚ) < (10:ℚ) ^ REVO_DECIMALS := pow_pos (by norm_num) _
  have haQ : (0:ℚ) < (a:ℚ) := by exact_mod_cast ha
  have habQ : ((a:ℚ)) ≤ (b:ℚ) := by exact_mod_cast hab
  have hs1 : 0 < decDiv (a:ℚ) ((10:ℚ) ^ dec) := decDiv_pos haQ hD
  have hs1le : decDiv (a:ℚ) ((10:ℚ) ^ dec) ≤ decDiv (b:ℚ) ((10:ℚ) ^ dec) :=
    decDiv_mono_num haQ habQ hD
  have hu : 0 < decMul (decDiv (a:ℚ) ((10:ℚ) ^ dec)) p := decMul_pos hs1 hp
  have hule : decMul (decDiv (a:ℚ) ((10:ℚ) ^ dec)) p ≤
      decMul (decDiv (b:ℚ) ((10:ℚ) ^ dec)) p := decMul_mono_left hs1 hs1le hp
  have hv : 0 < decDiv (decMul (decDiv (a:ℚ) ((10:ℚ) ^ dec)) p) r := decDiv_pos hu hr
  have hvle : decDiv (decMul (decDiv (a:ℚ) ((10:ℚ) ^ dec)) p) r ≤
      decDiv (decMul (decDiv (b:ℚ) ((10:ℚ) ^ dec)) p) r := decDiv_mono_num hu hule hr
  have hw : 0 < decMul (decDiv (decMul (decDiv (a:ℚ) ((10:ℚ) ^ dec)) p) r)
      ((10:ℚ) ^ REVO_DECIMALS) := decMul_pos hv hR
  have hwle : decMul (decDiv (decMul (decDiv (a:ℚ) ((10:ℚ) ^ dec)) p) r)
        ((10:ℚ) ^ REVO_DECIMALS) ≤
      decMul (decDiv (decMul (decDiv (b:ℚ) ((10:ℚ) ^ dec)) p) r)
        ((10:ℚ) ^ REVO_DECIMALS) := decMul_mono_left hv hvle hR
  simp only [revoFromPath]
  exact truncQ_mono_of_nonneg hw.le hwle

lemma revoFromPath_mono_price {a : ℤ} {dec : ℕ} {p q r : ℚ}
    (ha : 0 < a) (hp : 0 < p) (hpq : p ≤ q) (hr : 0 < r) :
    revoFromPath a dec p r ≤ revoFromPath a dec q r := by
  have hD : (0:ℚ) < (10:ℚ) ^ dec := pow_pos (by norm_num) dec
  have hR : (0:ℚ) < (10:ℚ) ^ REVO_DECIMALS := pow_pos (by norm_num) _
  have haQ : (0:ℚ) < (a:ℚ) := by exact_mod_cast ha
  have hs1 : 0 < decDiv (a:ℚ) ((10:ℚ) ^ dec) := decDiv_pos haQ hD
  have hu : 0 < decMul (decDiv (a:ℚ) ((10:ℚ) ^ dec)) p := decMul_pos hs1 hp
  have hule : decMul (decDiv (a:ℚ) ((10:ℚ) ^ dec)) p ≤
      decMul (decDiv (a:ℚ) ((10:ℚ) ^ dec)) q := decMul_mono_right hs1 hp hpq
  have hv : 0 < decDiv (decMul (decDiv (a:ℚ) ((10:ℚ) ^ dec)) p) r := decDiv_pos hu hr
  have hvle : decDiv (decMul (decDiv (a:ℚ) ((10:ℚ) ^ dec)) p) r ≤
      decDiv (decMul (decDiv (a:ℚ) ((10:ℚ) ^ dec)) q) r := decDiv_mono_num hu hule hr
  have hw : 0 < decMul (decDiv (decMul (decDiv (a:ℚ) ((10:ℚ) ^ dec)) p) r)
      ((10:ℚ) ^ REVO_DECIMALS) := decMul_pos hv hR
  have hwle : decMul (decDiv (decMul (decDiv (a:ℚ) ((10:ℚ) ^ dec)) p) r)
        ((10:ℚ) ^ REVO_DECIMALS) ≤
      decMul (decDiv (decMul (decDiv (a:ℚ) ((10:ℚ) ^ dec)) q) r)
        ((10:ℚ) ^ REVO_DECIMALS) := decMul_mono_left hv hvle hR
  simp only [revoFromPath]
  exact truncQ_mono_of_nonneg hw.le hwle

lemma revoFromPath_anti_dest {a : ℤ} {dec : ℕ} {p r r' : ℚ}
    (ha : 0 < a) (hp : 0 < p) (hr' : 0 < r') (hrr : r' ≤ r) :
    revoFromPath a dec p r ≤ revoFromPath a dec p r' := by
  have hD : (0:ℚ) < (10:ℚ) ^ dec := pow_pos (by norm_num) dec
  have hR : (0:ℚ) < (10:ℚ) ^ REVO_DECIMALS := pow_pos (by norm_num) _
  have haQ : (0:ℚ) < (a:ℚ) := by exact_mod_cast ha
  have hs1 : 0 < decDiv (a:ℚ) ((10:ℚ) ^ dec) := decDiv_pos haQ hD
  have hu : 0 < decMul (decDiv (a:ℚ) ((10:ℚ) ^ dec)) p := decMul_pos hs1 hp
  have hv : 0 < decDiv (decMul (decDiv (a:ℚ) ((10:ℚ) ^ dec)) p) r :=
    decDiv_pos hu (lt_of_lt_of_le hr' hrr)
  have hvle : decDiv (decMul (decDiv (a:ℚ) ((10:ℚ) ^ dec)) p) r ≤
      decDiv (decMul (decDiv (a:ℚ) ((10:ℚ) ^ dec)) p) r' := decDiv_anti_den hu hr' hrr
  have hw : 0 < decMul (decDiv (decMul (decDiv (a:ℚ) ((10:ℚ) ^ dec)) p) r)
      ((10:ℚ) ^ REVO_DECIMALS) := decMul_pos hv hR
  have hwle : decMul (decDiv (decMul (decDiv (a:ℚ) ((10:ℚ) ^ dec)) p) r)
        ((10:ℚ) ^ REVO_DECIMALS) ≤
      decMul (decDiv (decMul (decDiv (a:ℚ) ((10:ℚ) ^ dec)) p) r')
        ((10:ℚ) ^ REVO_DECIMALS) := decMul_mono_left hv hvle hR
  simp only [revoFromPath]
  exact truncQ_mono_of_nonneg hw.le hwle

lemma calcRevoResult_cxs {amt : ℤ} {cp np rp : ℚ} (hrp : 0 < rp) :
    calcRevoResult CXS_TOKEN_ADDRESS amt cp np rp =
      CalcResult.ok (revoFromPath amt CXS_DECIMALS cp rp) := by
  rw [calcRevoResult, if_neg (not_le.mpr hrp), if_pos rfl]

lemma calcRevoResult_nextep {amt : ℤ} {cp np rp : ℚ} (hrp : 0 < rp) :
    calcRevoResult NEXTEP_TOKEN_ADDRESS amt cp np rp =
      CalcResult.ok (revoFromPath amt NEXTEP_DECIMALS np rp) := by
  rw [calcRevoResult, if_neg (not_le.mpr hrp), if_neg (by decide), if_pos rfl]

lemma calculate_cxs {amt : ℤ} {cp np rp : ℚ} (hrp : 0 < rp) :
    calculate_revo_amount CXS_TOKEN_ADDRESS amt cp np rp =
      revoFromPath amt CXS_DECIMALS cp rp := by
  rw [calculate_revo_amount, calcRevoResult_cxs hrp]

lemma calculate_nextep {amt : ℤ} {cp np rp : ℚ} (hrp : 0 < rp) :
    calculate_revo_amount NEXTEP_TOKEN_ADDRESS amt cp np rp =
      revoFromPath amt NEXTEP_DECIMALS np rp := by
  rw [calculate_revo_amount, calcRevoResult_nextep hrp]

lemma process_deposits_skip (mint : String → ℤ → Option String)
    (cp np rp : ℚ) (now : String) (d : Deposit) (st : BridgeState)
    (h : st.is_tx_processed d.tx_hash = true) :
    process_deposits mint cp np rp now [d] st = (st, 0, 0) := by
  rw [process_deposits, if_pos h]
  rfl

lemma process_deposits_last (mint : String → ℤ → Option String)
    (cp np rp : ℚ) (now : String) :
    ∀ (ds : List Deposit) (st : BridgeState),
      ((process_deposits mint cp np rp now ds st).1).last_block_processed =
        st.last_block_processed := by
  intro ds
  induction ds with
  | nil => intro st; rfl
  | cons d rest ih =>
    intro st
    rw [process_deposits]
    by_cases h1 : st.is_tx_processed d.tx_hash = true
    · rw [if_pos h1]
      exact ih st
    · rw [if_neg h1]
      by_cases h2 : calculate_revo_amount d.token_address d.amount cp np rp ≤ 0
      · rw [if_pos h2]
        exact ih st
      · rw [if_neg h2]
        cases hm : mint d.from_address
            (calculate_revo_amount d.token_address d.amount cp np rp) with
        | none =>
          simp only
          exact ih st
        | some mtx =>
          simp only
          exact ih _

lemma dictGet?_dictSet (m : List (String × ProcessedRecord)) (k : String)
    (v : ProcessedRecord) : dictGet? (dictSet m k v) k = some v := by
  induction m with
  | nil => simp [dictSet, dictGet?]
  | cons p rest ih =>
    rcases p with ⟨k1, v1⟩
    rw [dictSet]
    by_cases h : k1 = k
    · rw [if_pos h]
      simp [dictGet?]
    · rw [if_neg h]
      have hb : (k1 == k) = false := beq_eq_false_iff_ne.mpr h
      simpa [dictGet?, List.find?, hb] using ih

lemma mark_is_processed (st : BridgeState) (k : String) (v : ProcessedRecord) :
    (st.mark_tx_processed k v).is_tx_processed k = true := by
  simp [BridgeState.is_tx_processed, BridgeState.mark_tx_processed, dictGet?_dictSet]

lemma run_bridge_cycle_noop (chain : ℤ → Option Block)
    (mint : String → ℤ → Option String) (args : BridgeArgs) (now : String)
    (st : BridgeState) (current_block : ℤ)
    (h : min (current_block - args.confirmations)
        (st.last_block_processed + 1 + args.max_blocks - 1) <
      st.last_block_processed + 1) :
    run_bridge_cycle chain mint args now st current_block = (st, none) := by
  rw [run_bridge_cycle, if_pos h]

lemma run_bridge_cycle_window (chain : ℤ → Option Block)
    (mint : String → ℤ → Option String) (args : BridgeArgs) (now : String)
    (st : BridgeState) (current_block : ℤ)
    (h : st.last_block_processed + 1 ≤
      min (current_block - args.confirmations)
        (st.last_block_processed + 1 + args.max_blocks - 1)) :
    run_bridge_cycle chain mint args now st current_block =
      (((process_deposits mint args.cxs_price args.nextep_price args.revo_price now
          (scan_for_deposits chain args.bridge_address (st.last_block_processed + 1)
            (min (current_block - args.confirmations)
              (st.last_block_processed + 1 + args.max_blocks - 1))
            [lowerStr CXS_TOKEN_ADDRESS, lowerStr NEXTEP_TOKEN_ADDRESS]) st).1).update_last_block
          (min (current_block - args.confirmations)
            (st.last_block_processed + 1 + args.max_blocks - 1)),
        some (st.last_block_processed + 1,
          min (current_block - args.confirmations)
            (st.last_block_processed + 1 + args.max_blocks - 1))) := by
  rw [run_bridge_cycle, if_neg (not_lt.mpr h)]

/-- C1: a raw transaction whose `to` field is the configured token contract,
whose input begins with the transfer selector, and whose decoded recipient
is the bridge address satisfies every premise of the claim, yet
`scan_for_deposits` emits no deposit for it, because the scanner only
inspects transactions whose `to` equals the bridge address itself. -/
theorem claim_C1_token_transfer_to_token_contract_invisible :
    c1Tx.toAddr = some NEXTEP_TOKEN_ADDRESS ∧
    sliceStr c1Tx.input 0 10 = "0xa9059cbb" ∧
    "0x" ++ lowerStr (sliceStr c1Tx.input 34 74) = lowerStr c1Bridge ∧
    hexNat? (sliceStr c1Tx.input 74 138) = some 1 ∧
    scan_for_deposits c1Chain c1Bridge 1 1
      [lowerStr CXS_TOKEN_ADDRESS, lowerStr NEXTEP_TOKEN_ADDRESS] = [] := by
  refine ⟨by decide, by decide, by decide, by decide, by decide⟩

/-- C2: running `process_deposits` on a deposit whose transaction hash is
already recorded performs zero mint calls and returns the ledger state
unchanged (both `last_block_processed` and `processed_txs`). -/
theorem claim_C2_processed_deposit_is_noop
    (mint : String → ℤ → Option String) (cp np rp : ℚ) (now : String)
    (d : Deposit) (st : BridgeState)
    (h : st.is_tx_processed d.tx_hash = true) :
    process_deposits mint cp np rp now [d] st = (st, 0, 0) :=
  process_deposits_skip mint cp np rp now d st h

/-- C2 witness: concrete already-processed deposit. -/
theorem claim_C2_witness :
    c2State.is_tx_processed "0xdead" = true ∧
    process_deposits c2Mint 1 1 1 "t1" [c2Dep] c2State = (c2State, 0, 0) :=
  ⟨by decide,
    claim_C2_processed_deposit_is_noop c2Mint 1 1 1 "t1" c2Dep c2State (by decide)⟩

/-- C3: the scan window is `start = last_block_processed + 1`,
`end = min(head - confirmations, start + max_blocks - 1)`; when
`start > end` the cycle scans nothing and leaves the state untouched, and
when `start ≤ end` exactly that window is scanned. -/
theorem claim_C3_window_formula_and_noop
    (chain : ℤ → Option Block) (mint : String → ℤ → Option String)
    (args : BridgeArgs) (now : String) (st : BridgeState) (current_block : ℤ) :
    (min (current_block - args.confirmations)
          (st.last_block_processed + 1 + args.max_blocks - 1) <
        st.last_block_processed + 1 →
      run_bridge_cycle chain mint args now st current_block = (st, none)) ∧
    (st.last_block_processed + 1 ≤
        min (current_block - args.confirmations)
          (st.last_block_processed + 1 + args.max_blocks - 1) →
      (run_bridge_cycle chain mint args now st current_block).2 =
        some (st.last_block_processed + 1,
          min (current_block - args.confirmations)
            (st.last_block_processed + 1 + args.max_blocks - 1))) := by
  constructor
  · intro h
    exact run_bridge_cycle_noop chain mint args now st current_block h
  · intro h
    rw [run_bridge_cycle_window chain mint args now st current_block h]

/-- C3 witness: the spec scenario with confirmation depth 12, head 100 and
last processed block 90 gives window end 88 below start 91, so the cycle
is a no-op and no block is scanned. -/
theorem claim_C3_witness :
    min ((100:ℤ) - c3Args.confirmations)
        (c3State.last_block_processed + 1 + c3Args.max_blocks - 1) <
      c3State.last_block_processed + 1 ∧
    run_bridge_cycle noChain noMint c3Args "t" c3State 100 = (c3State, none) :=
  ⟨by decide,
    (claim_C3_window_formula_and_noop noChain noMint c3Args "t" c3State 100).1
      (by decide)⟩

/-- C4 counterexample: `update_last_block` assigns the argument unchanged,
so with current value 5 and argument 3 the stored value becomes 3, not
`max 5 3 = 5`; the claim that it stores the max is false on the code. -/
theorem claim_C4_counterexample :
    (({ last_block_processed := 5, processed_txs := [] } :
        BridgeState).update_last_block 3).last_block_processed = 3 ∧
    max (5:ℤ) 3 = 5 ∧ (3:ℤ) ≠ 5 := by
  refine ⟨rfl, by decide, by decide⟩

/-- C4 amended: `update_last_block` assigns its argument unconditionally
(no max), and monotonicity of `last_block_processed` nevertheless holds
across orchestrator cycles because a cycle only advances to an end block
that is at least `last_block_processed + 1`. -/
theorem claim_C4_amended_assignment_and_cycle_monotonicity :
    (∀ (st : BridgeState) (b : ℤ),
      (st.update_last_block b).last_block_processed = b) ∧
    (∀ (chain : ℤ → Option Block) (mint : String → ℤ → Option String)
        (args : BridgeArgs) (now : String) (st : BridgeState)
        (current_block : ℤ),
      st.last_block_processed ≤
        (run_bridge_cycle chain mint args now st current_block).1.last_block_processed) := by
  constructor
  · intro st b
    rfl
  · intro chain mint args now st current_block
    by_cases h : min (current_block - args.confirmations)
        (st.last_block_processed + 1 + args.max_blocks - 1) <
      st.last_block_processed + 1
    · rw [run_bridge_cycle_noop chain mint args now st current_block h]
    · have h' := not_lt.mp h
      rw [run_bridge_cycle_window chain mint args now st current_block h']
      have hlast : ∀ (s : BridgeState) (b : ℤ),
          (s.update_last_block b).last_block_processed = b := fun _ _ => rfl
      rw [hlast]
      omega

/-- C5 counterexample: for a native deposit of `10^28 + 6` base units at
equal unit prices the code returns `10^28 + 10`, strictly above the exact
floor `10^28 + 6` of the spec formula: the 28-significant-digit rounding
rounds up past the floor, so `convert` is not floor-truncation in general. -/
theorem claim_C5_counterexample :
    calculate_revo_amount CXS_TOKEN_ADDRESS (10^28 + 6) 1 1 1 = 10^28 + 10 ∧
    specConvertFloor (10^28 + 6) 18 1 1 18 = 10^28 + 6 ∧
    ((10:ℤ)^28 + 6 : ℤ) < 10^28 + 10 := by
  refine ⟨by decide, ?_, by decide⟩
  norm_num [specConvertFloor]

/-- C5 amended: scenario A holds exactly as specified: one full native
unit at source price 0.05 and destination price 0.10 converts to exactly
`5 * 10^17` base units, agreeing with the spec floor formula there. -/
theorem claim_C5_amended_scenario_A :
    calculate_revo_amount CXS_TOKEN_ADDRESS (10^18) (1/20) 1 (1/10) =
      5 * 10^17 ∧
    specConvertFloor (10^18) 18 (1/20) (1/10) 18 = 5 * 10^17 := by
  refine ⟨by decide, ?_⟩
  norm_num [specConvertFloor]

/-- C6 counterexample: with a source price of `-1` (≤ 0) the valuation
function does not fail with `InvalidPrice`: it proceeds down the ok path
and returns `-(10^18)`. -/
theorem claim_C6_counterexample :
    calcRevoResult CXS_TOKEN_ADDRESS (10^18) (-1) 1 1 =
      CalcResult.ok (-(10^18)) ∧
    CalcResult.ok (-(10^18)) ≠ CalcResult.invalidPrice := by
  refine ⟨by decide, by decide⟩

/-- C6 amended: the valuation function fails with `InvalidPrice` exactly
when the destination price is ≤ 0 (source prices are not checked), and
with `UnsupportedAsset` exactly when the destination price is positive and
the lowercased asset identifier is neither configured source asset. -/
theorem claim_C6_amended_error_conditions
    (token_address : String) (amt : ℤ) (cp np rp : ℚ) :
    (calcRevoResult token_address amt cp np rp = CalcResult.invalidPrice ↔
      rp ≤ 0) ∧
    (calcRevoResult token_address amt cp np rp = CalcResult.unsupportedAsset ↔
      (¬ rp ≤ 0 ∧ lowerStr token_address ≠ lowerStr CXS_TOKEN_ADDRESS ∧
        lowerStr token_address ≠ lowerStr NEXTEP_TOKEN_ADDRESS)) := by
  rw [calcRevoResult]
  split_ifs with h1 h2 h3 <;> simp_all

/-- C7: when the scan window is non-empty and yields a single unprocessed
deposit whose computed amount is positive but whose mint call fails, the
cycle leaves the deposit's hash absent from the ledger while
`last_block_processed` still advances to the window end. -/
theorem claim_C7_mint_failure_unrecorded_window_advances
    (chain : ℤ → Option Block) (mint : String → ℤ → Option String)
    (args : BridgeArgs) (now : String) (st : BridgeState) (current_block : ℤ)
    (d : Deposit)
    (hwin : st.last_block_processed + 1 ≤
      min (current_block - args.confirmations)
        (st.last_block_processed + 1 + args.max_blocks - 1))
    (hscan : scan_for_deposits chain args.bridge_address
        (st.last_block_processed + 1)
        (min (current_block - args.confirmations)
          (st.last_block_processed + 1 + args.max_blocks - 1))
        [lowerStr CXS_TOKEN_ADDRESS, lowerStr NEXTEP_TOKEN_ADDRESS] = [d])
    (hnew : st.is_tx_processed d.tx_hash = false)
    (hamt : 0 < calculate_revo_amount d.token_address d.amount args.cxs_price
        args.nextep_price args.revo_price)
    (hmint : mint d.from_address (calculate_revo_amount d.token_address
        d.amount args.cxs_price args.nextep_price args.revo_price) = none) :
    (run_bridge_cycle chain mint args now st current_block).1.last_block_processed =
      min (current_block - args.confirmations)
        (st.last_block_processed + 1 + args.max_blocks - 1) ∧
    (run_bridge_cycle chain mint args now st current_block).1.is_tx_processed
      d.tx_hash = false := by
  have hproc : process_deposits mint args.cxs_price args.nextep_price
      args.revo_price now [d] st = (st, 1, 0) := by
    rw [process_deposits, if_neg (by rw [hnew]; exact Bool.false_ne_true),
      if_neg (not_le.mpr hamt), hmint]
    rfl
  rw [run_bridge_cycle_window chain mint args now st current_block hwin, hscan,
    hproc]
  exact ⟨rfl, hnew⟩

/-- C7 witness: a concrete native deposit of 5 base units in block 1 whose
mint call fails: after the cycle the hash is unrecorded and the last
processed block is the window end. -/
theorem claim_C7_witness :
    (run_bridge_cycle c7Chain noMint c7Args "t"
      { last_block_processed := 0, processed_txs := [] } 1).1.last_block_processed = 1 ∧
    (run_bridge_cycle c7Chain noMint c7Args "t"
      { last_block_processed := 0, processed_txs := [] } 1).1.is_tx_processed
      "0xfeed01" = false := by
  obtain ⟨h1, h2⟩ := claim_C7_mint_failure_unrecorded_window_advances
    c7Chain noMint c7Args "t" { last_block_processed := 0, processed_txs := [] }
    1 c7Dep (by decide) (by decide) (by decide) (by decide) (by decide)
  constructor
  · rw [h1]
    decide
  · exact h2

/-- C8 counterexample: `mark_tx_processed` on an already-present key does
not fail: it overwrites the stored record in place. -/
theorem claim_C8_counterexample :
    ({ last_block_processed := 0, processed_txs := [("0xdup", c8Rec1)] } :
        BridgeState).mark_tx_processed "0xdup" c8Rec2 =
      { last_block_processed := 0, processed_txs := [("0xdup", c8Rec2)] } ∧
    c8Rec1 ≠ c8Rec2 := by
  refine ⟨by decide, by decide⟩

/-- C8 amended: `mark_tx_processed` always succeeds; on a present key it
replaces the stored record (Python dict assignment), so the write is last
wins and deduplication rests entirely on the callers' `is_tx_processed`
pre-check. -/
theorem claim_C8_amended_overwrite_semantics
    (st : BridgeState) (k : String) (v : ProcessedRecord) :
    (st.mark_tx_processed k v).is_tx_processed k = true ∧
    dictGet? (st.mark_tx_processed k v).processed_txs k = some v :=
  ⟨mark_is_processed st k v, dictGet?_dictSet st.processed_txs k v⟩

/-- C9: for positive amount and prices, the valuation function is
deterministic, monotone non-decreasing in the amount and in the source
price, and non-increasing in the destination price, on both supported
assets. -/
theorem claim_C9_convert_monotone
    (a b : ℤ) (cp cq np rp rq : ℚ)
    (ha : 0 < a) (hab : a ≤ b) (hcp : 0 < cp) (hcpq : cp ≤ cq)
    (hrq : 0 < rq) (hrqp : rq ≤ rp) :
    (calculate_revo_amount CXS_TOKEN_ADDRESS a cp np rp =
      calculate_revo_amount CXS_TOKEN_ADDRESS a cp np rp) ∧
    calculate_revo_amount CXS_TOKEN_ADDRESS a cp np rp ≤
      calculate_revo_amount CXS_TOKEN_ADDRESS b cp np rp ∧
    calculate_revo_amount CXS_TOKEN_ADDRESS a cp np rp ≤
      calculate_revo_amount CXS_TOKEN_ADDRESS a cq np rp ∧
    calculate_revo_amount CXS_TOKEN_ADDRESS a cp np rp ≤
      calculate_revo_amount CXS_TOKEN_ADDRESS a cp np rq ∧
    calculate_revo_amount NEXTEP_TOKEN_ADDRESS a np cp rp ≤
      calculate_revo_amount NEXTEP_TOKEN_ADDRESS b np cp rp ∧
    calculate_revo_amount NEXTEP_TOKEN_ADDRESS a np cp rp ≤
      calculate_revo_amount NEXTEP_TOKEN_ADDRESS a np cq rp ∧
    calculate_revo_amount NEXTEP_TOKEN_ADDRESS a np cp rp ≤
      calculate_revo_amount NEXTEP_TOKEN_ADDRESS a np cp rq := by
  have hrp : 0 < rp := lt_of_lt_of_le hrq hrqp
  refine ⟨rfl, ?_, ?_, ?_, ?_, ?_, ?_⟩
  · rw [calculate_cxs hrp, calculate_cxs hrp]
    exact revoFromPath_mono_amount ha hab hcp hrp
  · rw [calculate_cxs hrp, calculate_cxs hrp]
    exact revoFromPath_mono_price ha hcp hcpq hrp
  · rw [calculate_cxs hrp, calculate_cxs hrq]
    exact revoFromPath_anti_dest ha hcp hrq hrqp
  · rw [calculate_nextep hrp, calculate_nextep hrp]
    exact revoFromPath_mono_amount ha hab hcp hrp
  · rw [calculate_nextep hrp, calculate_nextep hrp]
    exact revoFromPath_mono_price ha hcp hcpq hrp
  · rw [calculate_nextep hrp, calculate_nextep hrq]
    exact revoFromPath_anti_dest ha hcp hrq hrqp

/-- C9 witness: concrete monotone instance in the amount. -/
theorem claim_C9_witness :
    (0:ℤ) < 10^18 ∧ ((1:ℚ)/20 ≤ 1/10) ∧
    calculate_revo_amount CXS_TOKEN_ADDRESS (10^18) (1/20) 1 (1/10) ≤
      calculate_revo_amount CXS_TOKEN_ADDRESS (2*10^18) (1/20) 1 (1/10) :=
  ⟨by decide, by decide,
    (claim_C9_convert_monotone (10^18) (2*10^18) (1/20) (1/10) 1 (1/10) (1/20)
      (by decide) (by decide) (by decide) (by decide) (by decide)
      (by decide)).2.1⟩

/-- C10: loading the ledger from a state file that exists but fails to
parse does not raise: the handler swallows the error and the ledger keeps
the empty initial state, so no transaction hash is marked processed. -/
theorem claim_C10_unparseable_state_file_resets (e : String) :
    BridgeState.load_state (some (Except.error e)) =
      { last_block_processed := 0, processed_txs := [] } ∧
    ∀ tx : String,
      (BridgeState.load_state (some (Except.error e))).is_tx_processed tx =
        false := by
  refine ⟨rfl, ?_⟩
  intro tx
  rfl
